import Mathlib

/-!
Verification of the memguard core against its specification.

The development shallowly embeds the Go sources:
* `internals.go` — page arithmetic (`roundToPageSize`), the canary
  allocator (`createCanary`), the guarded-layout address computation
  (`getAllMemory`) and `wipeBytes`;
* `memcall/memcall_unix.go` — the platform calls `Lock` and `Unlock`;
* the LockedBuffer operation set (`New`, `NewFromBytes`, `Copy`, `Move`,
  `EqualTo`, `MarkAsReadOnly`, `MarkAsReadWrite`, `Trim`, `Destroy`),
  whose defining file is not part of the sources at hand (only its test
  file is); those definitions are modelled from the specification text.

Go `int` values are modelled as mathematical integers together with
explicit two's-complement wrap-around modulo 2^64 at every arithmetic
step, exactly where the Go code can overflow.
-/

namespace Memguard

/-! ### Go 64-bit integer arithmetic

A Go `int` is a 64-bit two's-complement machine word.  We model a word
as the mathematical integer it denotes, in the range `[-2^63, 2^63)`.
`wrap64` reduces an unbounded integer to that range; `u64` gives the
unsigned 64-bit representative used by the bitwise operations. -/

/-- Reduce an integer to the signed 64-bit range `[-2^63, 2^63)`,
two's-complement style. -/
def wrap64 (z : ℤ) : ℤ := (z + 2 ^ 63) % 2 ^ 64 - 2 ^ 63

/-- Unsigned 64-bit representative of a signed word. -/
def u64 (z : ℤ) : ℕ := (z % 2 ^ 64).toNat

/-- Go addition on `int` (wraps modulo 2^64). -/
def goAdd (a b : ℤ) : ℤ := wrap64 (a + b)

/-- Go subtraction on `int` (wraps modulo 2^64). -/
def goSub (a b : ℤ) : ℤ := wrap64 (a - b)

/-- Go bitwise complement `^a` on `int`: flips all 64 bits. -/
def goNot (a : ℤ) : ℤ := wrap64 (2 ^ 64 - 1 - (u64 a : ℤ))

/-- Go bitwise conjunction `a & b` on `int`. -/
def goAnd (a b : ℤ) : ℤ := wrap64 ((u64 a &&& u64 b : ℕ) : ℤ)

theorem wrap64_eq_self (z : ℤ) (h1 : -(2 ^ 63) ≤ z) (h2 : z < 2 ^ 63) :
    wrap64 z = z := by
  unfold wrap64
  rw [Int.emod_eq_of_lt (by omega) (by norm_num; omega)]
  omega

theorem wrap64_eq_sub (z : ℤ) (h1 : 2 ^ 63 ≤ z) (h2 : z < 2 ^ 64 + 2 ^ 63) :
    wrap64 z = z - 2 ^ 64 := by
  unfold wrap64
  have h3 : z + 2 ^ 63 = (z + 2 ^ 63 - 2 ^ 64) + 2 ^ 64 * 1 := by ring
  rw [h3, Int.add_mul_emod_self_left,
    Int.emod_eq_of_lt (by norm_num; omega) (by norm_num; omega)]
  omega

theorem u64_cast_of_nonneg (z : ℤ) (h1 : 0 ≤ z) (h2 : z < 2 ^ 64) :
    (u64 z : ℤ) = z := by
  unfold u64
  rw [Int.emod_eq_of_lt h1 h2, Int.toNat_of_nonneg h1]

theorem u64_cast_of_neg (z : ℤ) (h1 : -(2 ^ 64) ≤ z) (h2 : z < 0) :
    (u64 z : ℤ) = z + 2 ^ 64 := by
  unfold u64
  have h3 : z % 2 ^ 64 = (z + 2 ^ 64) % 2 ^ 64 := by
    rw [Int.add_emod_self]
  have h4 : (z + 2 ^ 64) % 2 ^ 64 = z + 2 ^ 64 :=
    Int.emod_eq_of_lt (by omega) (by omega)
  rw [h3, h4, Int.toNat_of_nonneg (by omega)]

theorem u64_lt (z : ℤ) : u64 z < 2 ^ 64 := by
  unfold u64
  have h1 : z % 2 ^ 64 < 2 ^ 64 := Int.emod_lt_of_pos z (by norm_num)
  omega

/-! ### The bitmask used by page rounding

`roundToPageSize` rounds with the expression `(x + (P-1)) & ^(P-1)`.
When `P = 2^k`, the complement-mask is the unsigned value `2^64 - 2^k`
and conjunction with it clears the low `k` bits. -/

theorem testBit_high_mask (k i : ℕ) (hk : k ≤ 64) :
    Nat.testBit (2 ^ 64 - 2 ^ k) i = (decide (i < 64) && !decide (i < k)) := by
  have hlt : (2 : ℕ) ^ k - 1 < 2 ^ 64 := by
    have h1 : (2 : ℕ) ^ k ≤ 2 ^ 64 := Nat.pow_le_pow_right (by norm_num) hk
    have h2 : 0 < (2 : ℕ) ^ k := Nat.two_pow_pos k
    omega
  have h2 : 0 < (2 : ℕ) ^ k := Nat.two_pow_pos k
  have heq : (2 : ℕ) ^ 64 - 2 ^ k = 2 ^ 64 - ((2 ^ k - 1) + 1) := by omega
  rw [heq, Nat.testBit_two_pow_sub_succ hlt, Nat.testBit_two_pow_sub_one]

/-- Conjunction with the mask `2^64 - 2^k` clears the low `k` bits:
on unsigned words it computes `u - u % 2^k`. -/
theorem land_high_mask (k u : ℕ) (hk : k ≤ 64) (hu : u < 2 ^ 64) :
    u &&& (2 ^ 64 - 2 ^ k) = u - u % 2 ^ k := by
  have hrhs : u - u % 2 ^ k = 2 ^ k * (u / 2 ^ k) := by
    have h1 := Nat.div_add_mod u (2 ^ k)
    omega
  rw [hrhs]
  apply Nat.eq_of_testBit_eq
  intro i
  rw [Nat.testBit_and, testBit_high_mask k i hk, Nat.testBit_mul_pow_two,
    ← Nat.shiftRight_eq_div_pow, Nat.testBit_shiftRight]
  by_cases hik : k ≤ i
  · have h3 : k + (i - k) = i := by omega
    rw [h3]
    by_cases hi64 : i < 64
    · have h4 : ¬i < k := by omega
      simp [hik, hi64, h4]
    · have hbit : u.testBit i = false := by
        apply Nat.testBit_lt_two_pow
        calc u < 2 ^ 64 := hu
          _ ≤ 2 ^ i := Nat.pow_le_pow_right (by norm_num) (by omega)
      simp [hbit]
  · have h5 : i < k := by omega
    simp [h5, hik]

/-! ### Page arithmetic (`internals.go`)

`roundToPageSize` is, literally from the source,
`(length + (pageSize - 1)) & (^(pageSize - 1))`, computed in Go `int`
arithmetic.  The system page size is a package-level value read from
the OS at startup; it is passed here as an explicit parameter. -/

/-- Round a length to a multiple of the system page size
(`internals.go`): `(length + (pageSize - 1)) & (^(pageSize - 1))` in
wrapping 64-bit arithmetic. -/
def roundToPageSize (pageSize length : ℤ) : ℤ :=
  goAnd (goAdd length (goSub pageSize 1)) (goNot (goSub pageSize 1))

theorem goSub_pow_one (k : ℕ) (hk : k ≤ 63) :
    goSub (2 ^ k) 1 = 2 ^ k - 1 := by
  have h1 : (2 : ℤ) ^ k ≤ 2 ^ 63 := by
    exact_mod_cast pow_le_pow_right₀ (by norm_num) hk
  have h2 : (0 : ℤ) < 2 ^ k := by positivity
  exact wrap64_eq_self _ (by omega) (by omega)

theorem goNot_pow_sub_one (k : ℕ) (hk : k ≤ 63) :
    goNot (2 ^ k - 1) = -(2 ^ k) := by
  have h1 : (2 : ℤ) ^ k ≤ 2 ^ 63 := by
    exact_mod_cast pow_le_pow_right₀ (by norm_num) hk
  have h2 : (0 : ℤ) < 2 ^ k := by positivity
  have h63 : (2 : ℤ) ^ 63 < 2 ^ 64 := by norm_num
  unfold goNot
  rw [u64_cast_of_nonneg _ (by omega) (by omega)]
  rw [show (2 : ℤ) ^ 64 - 1 - (2 ^ k - 1) = 2 ^ 64 - 2 ^ k by ring]
  rw [wrap64_eq_sub _ (by omega) (by omega)]
  ring

/-- Unsigned representative of `-(2^k)`: the complement mask
`2^64 - 2^k`, as a natural number. -/
theorem u64_neg_pow (k : ℕ) (hk : k ≤ 63) :
    u64 (-(2 ^ k)) = 2 ^ 64 - 2 ^ k := by
  have h1 : (2 : ℤ) ^ k ≤ 2 ^ 63 := by
    exact_mod_cast pow_le_pow_right₀ (by norm_num) hk
  have h2 : (0 : ℤ) < 2 ^ k := by positivity
  have h63 : (2 : ℤ) ^ 63 < 2 ^ 64 := by norm_num
  have h3 : (u64 (-(2 ^ k)) : ℤ) = -(2 ^ k) + 2 ^ 64 :=
    u64_cast_of_neg _ (by omega) (by omega)
  have h4 : (2 : ℕ) ^ k ≤ 2 ^ 64 := Nat.pow_le_pow_right (by norm_num) (by omega)
  have h5 : ((2 ^ 64 - 2 ^ k : ℕ) : ℤ) = -(2 ^ k) + 2 ^ 64 := by
    rw [Nat.cast_sub h4]
    push_cast
    ring
  omega

/-- In the overflow-free range, `roundToPageSize` computes
`(x + P - 1) - ((x + P - 1) % P)` exactly, where `P = 2^k`. -/
theorem roundToPageSize_eq (k : ℕ) (hk : k ≤ 63) (x : ℤ) (hx : 0 ≤ x)
    (hov : x + 2 ^ k - 1 < 2 ^ 63) :
    roundToPageSize (2 ^ k) x = (x + 2 ^ k - 1) - (x + 2 ^ k - 1) % 2 ^ k := by
  have h1 : (2 : ℤ) ^ k ≤ 2 ^ 63 := by
    exact_mod_cast pow_le_pow_right₀ (by norm_num) hk
  have h2 : (0 : ℤ) < 2 ^ k := by positivity
  have h63 : (2 : ℤ) ^ 63 < 2 ^ 64 := by norm_num
  unfold roundToPageSize
  rw [goSub_pow_one k hk, goNot_pow_sub_one k hk]
  have hadd : goAdd x (2 ^ k - 1) = x + 2 ^ k - 1 := by
    unfold goAdd
    rw [show x + (2 ^ k - 1) = x + 2 ^ k - 1 by ring]
    exact wrap64_eq_self _ (by omega) hov
  rw [hadd]
  unfold goAnd
  set z : ℤ := x + 2 ^ k - 1 with hz
  have hzn : 0 ≤ z := by omega
  have hu : (u64 z : ℤ) = z := u64_cast_of_nonneg _ hzn (by omega)
  rw [u64_neg_pow k hk, land_high_mask k (u64 z) (by omega) (u64_lt z)]
  have hmle : u64 z % 2 ^ k ≤ u64 z := Nat.mod_le _ _
  have hcast : ((u64 z - u64 z % 2 ^ k : ℕ) : ℤ) = z - z % 2 ^ k := by
    push_cast [hmle]
    rw [hu]
  rw [hcast]
  have hmod1 : (0 : ℤ) ≤ z % 2 ^ k := Int.emod_nonneg z (by positivity)
  have hmod2 : z % 2 ^ k < 2 ^ k := Int.emod_lt_of_pos z h2
  exact wrap64_eq_self _ (by omega) (by omega)

/-- Two multiples of a positive `P` that are distinct differ by at
least `P`. -/
theorem mult_gap (P a b : ℤ) (hP : 0 < P) (ha : a % P = 0) (hb : b % P = 0)
    (hlt : b < a) : b + P ≤ a := by
  have ha2 : P * (a / P) = a := by
    have := Int.ediv_add_emod a P
    omega
  have hb2 : P * (b / P) = b := by
    have := Int.ediv_add_emod b P
    omega
  have hq : b / P < a / P := by
    by_contra hcon
    push_neg at hcon
    have := mul_le_mul_of_nonneg_left hcon (le_of_lt hP)
    omega
  have h3 : P * (b / P + 1) ≤ P * (a / P) := by
    apply mul_le_mul_of_nonneg_left _ (le_of_lt hP)
    omega
  have h4 : P * (b / P + 1) = b + P := by
    rw [mul_add, mul_one, hb2]
  omega

/-- `roundToPageSize` returns the least multiple of the page size that
is at least the requested length, in the overflow-free range. -/
theorem roundToPageSize_least (k : ℕ) (hk : k ≤ 63) (x : ℤ) (hx : 0 ≤ x)
    (hov : x + 2 ^ k - 1 < 2 ^ 63) :
    roundToPageSize (2 ^ k) x % 2 ^ k = 0 ∧ x ≤ roundToPageSize (2 ^ k) x ∧
      ∀ m : ℤ, m % 2 ^ k = 0 → x ≤ m → roundToPageSize (2 ^ k) x ≤ m := by
  have h2 : (0 : ℤ) < 2 ^ k := by positivity
  rw [roundToPageSize_eq k hk x hx hov]
  set z : ℤ := x + 2 ^ k - 1 with hz
  have hmod1 : (0 : ℤ) ≤ z % 2 ^ k := Int.emod_nonneg z (by positivity)
  have hmod2 : z % 2 ^ k < 2 ^ k := Int.emod_lt_of_pos z h2
  have hmod0 : (z - z % 2 ^ k) % 2 ^ k = 0 := by
    rw [Int.sub_emod, Int.emod_emod_of_dvd z dvd_rfl, sub_self, Int.zero_emod]
  refine ⟨hmod0, by omega, ?_⟩
  intro m hm hxm
  by_contra hcon
  push_neg at hcon
  have := mult_gap (2 ^ k) (z - z % 2 ^ k) m h2 hmod0 hm hcon
  omega

/-- On inputs near the top of the signed 64-bit range, the intermediate
sum of `roundToPageSize` wraps to a negative word and the result is
exactly `-2^63`. -/
theorem roundToPageSize_overflow (k : ℕ) (hk : k ≤ 63) (x : ℤ)
    (hx1 : 2 ^ 63 - 2 ^ k < x) (hx2 : x ≤ 2 ^ 63 - 1) :
    goAdd x (goSub (2 ^ k) 1) < 0 ∧ roundToPageSize (2 ^ k) x = -(2 ^ 63) := by
  have h1 : (2 : ℤ) ^ k ≤ 2 ^ 63 := by
    exact_mod_cast pow_le_pow_right₀ (by norm_num) hk
  have h2 : (0 : ℤ) < 2 ^ k := by positivity
  have h63 : (2 : ℤ) ^ 63 < 2 ^ 64 := by norm_num
  rw [goSub_pow_one k hk]
  have hzlo : (2 : ℤ) ^ 63 ≤ x + (2 ^ k - 1) := by omega
  have hzhi : x + (2 ^ k - 1) < 2 ^ 64 := by omega
  have hadd : goAdd x (2 ^ k - 1) = x + (2 ^ k - 1) - 2 ^ 64 := by
    unfold goAdd
    exact wrap64_eq_sub _ hzlo (by omega)
  constructor
  · rw [hadd]
    omega
  · unfold roundToPageSize
    rw [goSub_pow_one k hk, goNot_pow_sub_one k hk, hadd]
    unfold goAnd
    rw [u64_neg_pow k hk]
    have hu : (u64 (x + (2 ^ k - 1) - 2 ^ 64) : ℤ) = x + (2 ^ k - 1) := by
      rw [u64_cast_of_neg _ (by omega) (by omega)]
      ring
    rw [land_high_mask k _ (by omega) (u64_lt _)]
    set u : ℕ := u64 (x + (2 ^ k - 1) - 2 ^ 64) with hudef
    have hcast63 : ((2 ^ 63 : ℕ) : ℤ) = 2 ^ 63 := by push_cast
    have hcastk : ((2 ^ k : ℕ) : ℤ) = 2 ^ k := by
      push_cast
      ring
    have hksplit : (2 : ℕ) ^ k * 2 ^ (63 - k) = 2 ^ 63 := by
      rw [← pow_add]
      congr 1
      omega
    have hulo : 2 ^ 63 ≤ u := by omega
    have huhi : u < 2 ^ 63 + 2 ^ k := by omega
    have hdiv : u / 2 ^ k = 2 ^ (63 - k) := by
      apply Nat.div_eq_of_lt_le
      · rw [mul_comm, hksplit]
        exact hulo
      · rw [add_mul, one_mul, mul_comm, hksplit]
        exact huhi
    have hval : u - u % 2 ^ k = 2 ^ 63 := by
      have hdm := Nat.div_add_mod u (2 ^ k)
      rw [hdiv] at hdm
      have := hksplit
      omega
    rw [hval, hcast63]
    rw [wrap64_eq_sub _ (by omega) (by omega)]
    norm_num

/-! ### Canary allocation and the guarded layout (`internals.go`)

`createCanary` drives the platform interface; we record the sequence of
platform calls it makes, each call described by the offsets (relative
to the start of the allocation) of the slice it receives.  Intervals
are half-open: `[lo, hi)`. -/

/-- One platform-interface call, with the half-open offset interval of
the memory it touches. -/
inductive MemOp where
  | alloc (len : ℤ)
  | lock (lo hi : ℤ)
  | protect (lo hi : ℤ) (read write : Bool)
  | fillRand (lo hi : ℤ)
  deriving DecidableEq, Repr

/-- Result of `createCanary`: the platform calls made, in order, and
the offset interval of the returned canary slice. -/
structure CanaryResult where
  trace : List MemOp
  canaryOff : ℤ
  canaryLen : ℤ
  deriving DecidableEq, Repr

/-- Create and allocate a canary value (`internals.go`).  The Go slice
expressions translate to offset intervals: `memory[:pageSize]` is
`[0, pageSize)`, `memory[pageSize : pageSize+roundedLen]` is
`[pageSize, pageSize+roundedLen)`, `memory[pageSize+roundedLen:]` is
`[pageSize+roundedLen, totalLen)`, and the returned slice starts at
`&memory[pageSize+roundedLen-32]` with length 32. -/
def createCanary (pageSize : ℤ) : CanaryResult :=
  let roundedLen := roundToPageSize pageSize 32
  let totalLen := 2 * pageSize + roundedLen
  { trace :=
      [ MemOp.alloc totalLen,
        MemOp.lock pageSize (pageSize + roundedLen),
        MemOp.protect 0 pageSize false false,
        MemOp.protect (pageSize + roundedLen) totalLen false false,
        MemOp.fillRand (pageSize + roundedLen - 32) (pageSize + roundedLen),
        MemOp.protect pageSize (pageSize + roundedLen) true false ],
    canaryOff := pageSize + roundedLen - 32,
    canaryLen := 32 }

/-- The container holding one LockedBuffer's protected slice: the
address of its first byte and its length (`internals.go`). -/
structure Container where
  bufferAddr : ℤ
  bufferLen : ℤ
  deriving DecidableEq, Repr

/-- Slice describing all memory related to a LockedBuffer
(`internals.go`): start address and total length.  The `uintptr`
subtraction in the source wraps modulo 2^64, which the `%` here
models. -/
def getAllMemory (pageSize : ℤ) (b : Container) : ℤ × ℤ :=
  let bufLen := b.bufferLen
  let roundedBufLen := roundToPageSize pageSize (bufLen + 32)
  let memAddr := (b.bufferAddr - ((roundedBufLen - bufLen) + pageSize)) % 2 ^ 64
  let memLen := pageSize * 2 + roundedBufLen
  (memAddr, memLen)

/-- Wipes a byte slice with zeroes (`internals.go`). -/
def wipeBytes (buf : List ℕ) : List ℕ :=
  buf.map (fun _ => 0)

/-! ### The platform calls (`memcall/memcall_unix.go`)

`Lock` first calls `madvise` (ignoring failure) and then `mlock`,
panicking if `mlock` fails.  `Unlock` calls `munlock` and panics if it
fails.  Each OS call's outcome is supplied as `none` (success) or
`some msg` (failure with error `msg`); the functions return whether
execution proceeds or the process aborts by panic. -/

/-- Whether a platform call returned normally or aborted the process. -/
inductive CallOutcome where
  | proceeded
  | panicked
  deriving DecidableEq, Repr

namespace memcall

/-- Lock (`memcall_unix.go`): `madvise` failure is ignored, `mlock`
failure panics. -/
def Lock (madviseResult mlockResult : Option String) : CallOutcome :=
  match madviseResult, mlockResult with
  | _, none => CallOutcome.proceeded
  | _, some _ => CallOutcome.panicked

/-- Unlock (`memcall_unix.go`): `munlock` failure panics. -/
def Unlock (munlockResult : Option String) : CallOutcome :=
  match munlockResult with
  | none => CallOutcome.proceeded
  | some _ => CallOutcome.panicked

end memcall

/-! ### LockedBuffer operations

The file defining the user-facing LockedBuffer operations is not among
the sources at hand — only its test file is.  The definitions below are
therefore modelled from the specification (sections 4.D, 4.E, 6 and 7),
with the test file fixing the observable behaviour they must satisfy.
Bytes are naturals; a buffer's exposed slice is a list plus its
capacity.  Operations are pure: a successful call returns the new
state, a failed call returns the error and, the state not being
returned, leaves it unchanged. -/

/-- Recoverable errors of the LockedBuffer API (spec section 7). -/
inductive MError where
  | errInvalidLength
  | errReadOnly
  | errDestroyed
  deriving DecidableEq, Repr

/-- Modelled from the spec: the user-facing LockedBuffer value — the
exposed `data` sequence (with its capacity) and the `readOnly` and
`destroyed` state flags (spec section 3). -/
structure LockedBuffer where
  data : List ℕ
  cap : ℕ
  readOnly : Bool
  destroyed : Bool
  deriving DecidableEq, Repr

/-- Modelled from the spec: `New(n)` — missing from the sources at
hand.  Rejects `n ≤ 0` with `ErrInvalidLength`, otherwise returns a
fresh buffer whose data has length `n` and capacity `n`, read-write and
live (spec sections 4.D and 6). -/
def New (n : ℤ) : Except MError LockedBuffer :=
  if n ≤ 0 then Except.error MError.errInvalidLength
  else Except.ok
    { data := List.replicate n.toNat 0,
      cap := n.toNat,
      readOnly := false,
      destroyed := false }

/-- Modelled from the spec: `Copy(src)` — missing from the sources at
hand.  Requires a live, writable buffer and writes the first
`min(len(data), len(src))` bytes of `src` into the front of `data`
(spec section 4.E). -/
def Copy (b : LockedBuffer) (src : List ℕ) : Except MError LockedBuffer :=
  if b.destroyed then Except.error MError.errDestroyed
  else if b.readOnly then Except.error MError.errReadOnly
  else
    let m := min b.data.length src.length
    Except.ok { b with data := src.take m ++ b.data.drop m }

/-- Modelled from the spec: `Move(src)` — missing from the sources at
hand.  `Copy(src)` followed by wiping the full length of `src` to
zero; the wiped `src` is returned alongside the new buffer state (spec
section 4.E). -/
def Move (b : LockedBuffer) (src : List ℕ) :
    Except MError (LockedBuffer × List ℕ) :=
  match Copy b src with
  | Except.error e => Except.error e
  | Except.ok b2 => Except.ok (b2, List.replicate src.length 0)

/-- Modelled from the spec: `NewFromBytes(src)` — missing from the
sources at hand.  `New(len(src))` then `Move(src)` (spec section 6). -/
def NewFromBytes (src : List ℕ) : Except MError LockedBuffer :=
  match New (src.length : ℤ) with
  | Except.error e => Except.error e
  | Except.ok b =>
    match Move b src with
    | Except.error e => Except.error e
    | Except.ok p => Except.ok p.1

/-- Modelled from the spec: the constant-time comparison inside
`EqualTo` — missing from the sources at hand.  If the lengths differ
the result is false; otherwise every byte pair is visited and the
xor-differences are accumulated, with no short-circuit on a mismatch
(spec section 4.E).  The second component counts the byte comparisons
performed, the model's measure of running time. -/
def ctCompare (a b : List ℕ) : Bool × ℕ :=
  if a.length ≠ b.length then (false, 0)
  else
    ((a.zip b).foldl (fun acc p => acc ||| (p.1 ^^^ p.2)) 0 == 0,
      (a.zip b).length)

/-- Modelled from the spec: `EqualTo(other)` — missing from the sources
at hand.  Requires a live buffer; compares `data` against `other` in
constant time (spec section 4.E; the test file fixes `ErrDestroyed` on
a destroyed buffer). -/
def EqualTo (b : LockedBuffer) (other : List ℕ) : Except MError Bool :=
  if b.destroyed then Except.error MError.errDestroyed
  else Except.ok (ctCompare b.data other).1

/-- Number of byte comparisons `EqualTo` performs. -/
def equalToComparisons (b : LockedBuffer) (other : List ℕ) : ℕ :=
  (ctCompare b.data other).2

/-- Modelled from the spec: `MarkAsReadOnly` — missing from the sources
at hand (spec section 4.E). -/
def MarkAsReadOnly (b : LockedBuffer) : Except MError LockedBuffer :=
  if b.destroyed then Except.error MError.errDestroyed
  else Except.ok { b with readOnly := true }

/-- Modelled from the spec: `MarkAsReadWrite` — missing from the
sources at hand (spec section 4.E). -/
def MarkAsReadWrite (b : LockedBuffer) : Except MError LockedBuffer :=
  if b.destroyed then Except.error MError.errDestroyed
  else Except.ok { b with readOnly := false }

/-- Modelled from the spec: `Trim(b, offset, size)` — missing from the
sources at hand.  Requires a live source; rejects bad bounds with
`ErrInvalidLength`; copies `data[offset .. offset+size]` into a fresh
buffer inheriting `readOnly` (spec section 4.E; the test file fixes
`ErrDestroyed` on a destroyed source). -/
def Trim (b : LockedBuffer) (offset size : ℤ) : Except MError LockedBuffer :=
  if b.destroyed then Except.error MError.errDestroyed
  else if size ≤ 0 ∨ offset < 0 ∨ (b.data.length : ℤ) < offset + size then
    Except.error MError.errInvalidLength
  else Except.ok
    { data := (b.data.drop offset.toNat).take size.toNat,
      cap := size.toNat,
      readOnly := b.readOnly,
      destroyed := false }

/-- Modelled from the spec: `Destroy` — missing from the sources at
hand.  If already destroyed, return at once; otherwise wipe, release
and mark the terminal state: empty data, `destroyed = true`,
`readOnly = false`.  Never returns an error (spec sections 4.D
and 7). -/
def Destroy (b : LockedBuffer) : LockedBuffer :=
  if b.destroyed then b
  else { data := [], cap := 0, readOnly := false, destroyed := true }

/-! ### Helper lemmas for the constant-time comparison -/

theorem lor_eq_zero_iff (x y : ℕ) : x ||| y = 0 ↔ x = 0 ∧ y = 0 := by
  constructor
  · intro h
    have h2 : (fun i => (Nat.testBit x i || Nat.testBit y i)) =
        (fun i => Nat.testBit 0 i) := by
      funext i
      rw [← Nat.testBit_or, h]
    constructor
    · apply Nat.eq_of_testBit_eq
      intro i
      have h3 := congrFun h2 i
      simp only [Nat.zero_testBit, Bool.or_eq_false_iff] at h3
      simp [h3.1, Nat.zero_testBit]
    · apply Nat.eq_of_testBit_eq
      intro i
      have h3 := congrFun h2 i
      simp only [Nat.zero_testBit, Bool.or_eq_false_iff] at h3
      simp [h3.2, Nat.zero_testBit]
  · rintro ⟨rfl, rfl⟩
    simp

theorem foldl_lor_eq_zero_iff (l : List (ℕ × ℕ)) (a : ℕ) :
    l.foldl (fun acc p => acc ||| (p.1 ^^^ p.2)) a = 0 ↔
      a = 0 ∧ ∀ p ∈ l, p.1 = p.2 := by
  induction l generalizing a with
  | nil => simp
  | cons hd tl ih =>
    rw [List.foldl_cons, ih, lor_eq_zero_iff]
    constructor
    · rintro ⟨⟨h1, h2⟩, h3⟩
      refine ⟨h1, ?_⟩
      intro p hp
      rcases List.mem_cons.mp hp with he | ht
      · rw [he]
        exact Nat.xor_eq_zero.mp h2
      · exact h3 p ht
    · rintro ⟨h1, h2⟩
      exact ⟨⟨h1, Nat.xor_eq_zero.mpr (h2 hd (List.mem_cons_self hd tl))⟩,
        fun p hp => h2 p (List.mem_cons_of_mem hd hp)⟩

theorem eq_of_length_eq_of_zip (a : List ℕ) :
    ∀ b : List ℕ, a.length = b.length → (∀ p ∈ a.zip b, p.1 = p.2) → a = b := by
  induction a with
  | nil =>
    intro b hl _
    cases b with
    | nil => rfl
    | cons y ys => simp at hl
  | cons x xs ih =>
    intro b hl h
    cases b with
    | nil => simp at hl
    | cons y ys =>
      have h1 : x = y := h (x, y) (by simp)
      have h2 : xs = ys := by
        apply ih ys (by simpa using hl)
        intro p hp
        exact h p (by simp [hp])
      rw [h1, h2]

theorem mem_zip_self_eq (a : List ℕ) : ∀ p ∈ a.zip a, p.1 = p.2 := by
  induction a with
  | nil => simp
  | cons x xs ih =>
    intro p hp
    rcases List.mem_cons.mp hp with he | ht
    · rw [he]
    · exact ih p ht

theorem ctCompare_eq_true_iff (a b : List ℕ) :
    (ctCompare a b).1 = true ↔ a = b := by
  unfold ctCompare
  by_cases hl : a.length = b.length
  · rw [if_neg (by simp [hl])]
    simp only [beq_iff_eq]
    rw [foldl_lor_eq_zero_iff]
    constructor
    · intro h
      exact eq_of_length_eq_of_zip a b hl h.2
    · rintro rfl
      exact ⟨rfl, mem_zip_self_eq a⟩
  · rw [if_pos (by simpa using hl)]
    constructor
    · intro h
      exact absurd h (by simp)
    · intro h
      exact absurd (congrArg List.length h) hl

theorem ctCompare_comparisons (a b : List ℕ) (hl : b.length = a.length) :
    (ctCompare a b).2 = a.length := by
  unfold ctCompare
  rw [if_neg (by omega)]
  simp [List.length_zip, hl]

/-! ### Claim theorems: LockedBuffer lifecycle and operations -/

/-- C1: after `Destroy(b)` the buffer's data is empty, `destroyed` is
true and `readOnly` is false; every subsequent operation other than
`Destroy` (`Copy`, `Move`, `MarkAsReadOnly`, `MarkAsReadWrite`,
`EqualTo`, `Trim`) returns `ErrDestroyed` — and, the operations being
pure functions that return a new state only on success, the state is
unchanged — and a second `Destroy` is a no-op that never returns an
error (its result type carries no error at all). -/
theorem destroy_terminal (b : LockedBuffer) (hb : b.destroyed = false)
    (src other : List ℕ) (off sz : ℤ) :
    (Destroy b).data = [] ∧
    (Destroy b).destroyed = true ∧
    (Destroy b).readOnly = false ∧
    Copy (Destroy b) src = Except.error MError.errDestroyed ∧
    Move (Destroy b) src = Except.error MError.errDestroyed ∧
    MarkAsReadOnly (Destroy b) = Except.error MError.errDestroyed ∧
    MarkAsReadWrite (Destroy b) = Except.error MError.errDestroyed ∧
    EqualTo (Destroy b) other = Except.error MError.errDestroyed ∧
    Trim (Destroy b) off sz = Except.error MError.errDestroyed ∧
    Destroy (Destroy b) = Destroy b := by
  have hD : Destroy b =
      { data := [], cap := 0, readOnly := false, destroyed := true } := by
    unfold Destroy
    rw [hb]
    simp
  rw [hD]
  refine ⟨rfl, rfl, rfl, ?_, ?_, ?_, ?_, ?_, ?_, ?_⟩ <;>
    simp [Copy, Move, MarkAsReadOnly, MarkAsReadWrite, EqualTo, Trim, Destroy]

/-- Witness for C1 at a concrete live buffer. -/
theorem destroy_terminal_witness :
    (LockedBuffer.mk [1, 2] 2 false false).destroyed = false ∧
    ((Destroy (LockedBuffer.mk [1, 2] 2 false false)).data = [] ∧
     (Destroy (LockedBuffer.mk [1, 2] 2 false false)).destroyed = true ∧
     (Destroy (LockedBuffer.mk [1, 2] 2 false false)).readOnly = false ∧
     Copy (Destroy (LockedBuffer.mk [1, 2] 2 false false)) [3] =
       Except.error MError.errDestroyed ∧
     Move (Destroy (LockedBuffer.mk [1, 2] 2 false false)) [3] =
       Except.error MError.errDestroyed ∧
     MarkAsReadOnly (Destroy (LockedBuffer.mk [1, 2] 2 false false)) =
       Except.error MError.errDestroyed ∧
     MarkAsReadWrite (Destroy (LockedBuffer.mk [1, 2] 2 false false)) =
       Except.error MError.errDestroyed ∧
     EqualTo (Destroy (LockedBuffer.mk [1, 2] 2 false false)) [4] =
       Except.error MError.errDestroyed ∧
     Trim (Destroy (LockedBuffer.mk [1, 2] 2 false false)) 0 1 =
       Except.error MError.errDestroyed ∧
     Destroy (Destroy (LockedBuffer.mk [1, 2] 2 false false)) =
       Destroy (LockedBuffer.mk [1, 2] 2 false false)) :=
  ⟨rfl, destroy_terminal (LockedBuffer.mk [1, 2] 2 false false) rfl [3] [4] 0 1⟩

/-- C2: for every `n > 0`, `New(n)` succeeds with data of length `n`
and capacity `n`; for `n ≤ 0` it returns `ErrInvalidLength` and creates
no buffer, and `NewFromBytes` of the empty sequence likewise returns
`ErrInvalidLength`. -/
theorem new_length_cap (n : ℤ) :
    (0 < n →
      (New n).toOption.map (fun b => ((b.data.length : ℤ), (b.cap : ℤ))) =
        some (n, n)) ∧
    (n ≤ 0 → New n = Except.error MError.errInvalidLength) ∧
    NewFromBytes [] = Except.error MError.errInvalidLength := by
  refine ⟨?_, ?_, ?_⟩
  · intro hn
    unfold New
    rw [if_neg (by omega)]
    simp [Except.toOption]
    omega
  · intro hn
    unfold New
    rw [if_pos hn]
  · rfl

/-- Witness for C2 at `n = 3`, `n = 0` and the empty sequence. -/
theorem new_length_cap_witness :
    (New 3).toOption.map (fun b => ((b.data.length : ℤ), (b.cap : ℤ))) =
      some (3, 3) ∧
    New 0 = Except.error MError.errInvalidLength ∧
    NewFromBytes [] = Except.error MError.errInvalidLength :=
  ⟨(new_length_cap 3).1 (by norm_num), (new_length_cap 0).2.1 (by norm_num),
    (new_length_cap 1).2.2⟩

/-- C3: on a live, writable buffer, `Move(src)` writes the first
`min(len(data), len(src))` bytes of `src` into the front of `data` and
zeroes all `len(src)` bytes of `src` — the full length of `src`. -/
theorem move_copies_and_wipes (b : LockedBuffer) (src : List ℕ)
    (hd : b.destroyed = false) (hr : b.readOnly = false) :
    Move b src =
      Except.ok
        ({ b with data :=
            src.take (min b.data.length src.length) ++
              b.data.drop (min b.data.length src.length) },
          List.replicate src.length 0) := by
  unfold Move Copy
  rw [hd, hr]
  simp

/-- Witness for C3: moving a short source into a length-3 buffer. -/
theorem move_copies_and_wipes_witness :
    (LockedBuffer.mk [5, 6, 7] 3 false false).destroyed = false ∧
    (LockedBuffer.mk [5, 6, 7] 3 false false).readOnly = false ∧
    Move (LockedBuffer.mk [5, 6, 7] 3 false false) [8, 9] =
      Except.ok (LockedBuffer.mk [8, 9, 7] 3 false false, [0, 0]) :=
  ⟨rfl, rfl, by
    have h := move_copies_and_wipes (LockedBuffer.mk [5, 6, 7] 3 false false)
      [8, 9] rfl rfl
    simpa using h⟩

/-- C4: on a live buffer, `EqualTo(other)` returns true exactly when
`data` and `other` are bitwise equal, that is, have the same length and
the same byte at every position. -/
theorem equalTo_iff_eq (b : LockedBuffer) (other : List ℕ)
    (hd : b.destroyed = false) :
    (EqualTo b other = Except.ok true ↔ b.data = other) ∧
    (b.data = other ↔
      (b.data.length = other.length ∧
        ∀ (i : ℕ) (h1 : i < b.data.length) (h2 : i < other.length),
          b.data.get ⟨i, h1⟩ = other.get ⟨i, h2⟩)) := by
  constructor
  · unfold EqualTo
    rw [hd]
    simp only [Bool.false_eq_true, if_false, Except.ok.injEq]
    exact ctCompare_eq_true_iff b.data other
  · constructor
    · rintro rfl
      exact ⟨rfl, fun i h1 h2 => rfl⟩
    · rintro ⟨hl, hp⟩
      exact List.ext_get hl hp

/-- Witness for C4: the buffer holding "test" equals "test" and does
not equal "toast". -/
theorem equalTo_iff_eq_witness :
    EqualTo (LockedBuffer.mk [116, 101, 115, 116] 4 false false)
      [116, 101, 115, 116] = Except.ok true ∧
    EqualTo (LockedBuffer.mk [116, 101, 115, 116] 4 false false)
      [116, 111, 97, 115, 116] ≠ Except.ok true :=
  ⟨(equalTo_iff_eq (LockedBuffer.mk [116, 101, 115, 116] 4 false false)
      [116, 101, 115, 116] rfl).1.mpr rfl,
   fun h =>
    absurd ((equalTo_iff_eq (LockedBuffer.mk [116, 101, 115, 116] 4 false false)
      [116, 111, 97, 115, 116] rfl).1.mp h) (by decide)⟩

/-- C5: the comparison inside `EqualTo` is constant-time with respect
to `len(data)`: on any input of the data's length it performs exactly
`len(data)` byte comparisons — it never short-circuits at the first
mismatch and never compares only a prefix — so the comparison count
does not depend on where a mismatch lies. -/
theorem equalTo_constant_time (b : LockedBuffer) (o1 o2 : List ℕ)
    (h1 : o1.length = b.data.length) (h2 : o2.length = b.data.length) :
    equalToComparisons b o1 = b.data.length ∧
    equalToComparisons b o1 = equalToComparisons b o2 := by
  have e1 := ctCompare_comparisons b.data o1 h1
  have e2 := ctCompare_comparisons b.data o2 h2
  unfold equalToComparisons
  exact ⟨e1, by rw [e1, e2]⟩

/-- Witness for C5: inputs mismatching "test" at position 1 and at
position 3 both take exactly 4 comparisons. -/
theorem equalTo_constant_time_witness :
    equalToComparisons (LockedBuffer.mk [116, 101, 115, 116] 4 false false)
      [116, 0, 115, 116] = 4 ∧
    equalToComparisons (LockedBuffer.mk [116, 101, 115, 116] 4 false false)
      [116, 0, 115, 116] =
      equalToComparisons (LockedBuffer.mk [116, 101, 115, 116] 4 false false)
        [116, 101, 115, 0] := by
  have h := equalTo_constant_time
    (LockedBuffer.mk [116, 101, 115, 116] 4 false false)
    [116, 0, 115, 116] [116, 101, 115, 0] rfl rfl
  exact ⟨h.1, h.2⟩

/-! ### Claim theorems: canary layout, guarded layout, page rounding -/

/-- C6: `createCanary` allocates exactly `2P + roundUp(32)` bytes,
makes the first `P` and the last `P` bytes inaccessible, locks the
middle `roundUp(32)` bytes, fills exactly the last 32 bytes of the
middle region with CSPRNG output, then (after the fill, as the trace
order shows) marks the middle region read-only, and returns a
reference of length exactly 32 to those bytes. -/
theorem createCanary_layout (k : ℕ) (P L : ℤ) (hk : k ≤ 62) (hP : P = 2 ^ k)
    (hL : L = roundToPageSize P 32) :
    (createCanary P).trace =
      [ MemOp.alloc (2 * P + L),
        MemOp.lock P (P + L),
        MemOp.protect 0 P false false,
        MemOp.protect (P + L) (2 * P + L) false false,
        MemOp.fillRand (P + L - 32) (P + L),
        MemOp.protect P (P + L) true false ] ∧
    (2 * P + L) - (P + L) = P ∧
    32 ≤ L ∧
    P ≤ P + L - 32 ∧
    (createCanary P).canaryOff = P + L - 32 ∧
    (createCanary P).canaryLen = 32 := by
  have hk63 : k ≤ 63 := by omega
  have h62 : (2 : ℤ) ^ k ≤ 2 ^ 62 := by
    exact_mod_cast pow_le_pow_right₀ (by norm_num) hk
  have h6263 : (2 : ℤ) ^ 62 < 2 ^ 63 := by norm_num
  have hL32 : (32 : ℤ) ≤ roundToPageSize (2 ^ k) 32 :=
    (roundToPageSize_least k hk63 32 (by norm_num) (by omega)).2.1
  rw [hL, hP]
  refine ⟨?_, by ring, hL32, by omega, ?_, ?_⟩ <;>
    simp [createCanary]

/-- Witness for C6 at the common page size `P = 2^12`. -/
theorem createCanary_layout_witness :
    (createCanary (2 ^ 12)).trace =
      [ MemOp.alloc (2 * 2 ^ 12 + roundToPageSize (2 ^ 12) 32),
        MemOp.lock (2 ^ 12) (2 ^ 12 + roundToPageSize (2 ^ 12) 32),
        MemOp.protect 0 (2 ^ 12) false false,
        MemOp.protect (2 ^ 12 + roundToPageSize (2 ^ 12) 32)
          (2 * 2 ^ 12 + roundToPageSize (2 ^ 12) 32) false false,
        MemOp.fillRand (2 ^ 12 + roundToPageSize (2 ^ 12) 32 - 32)
          (2 ^ 12 + roundToPageSize (2 ^ 12) 32),
        MemOp.protect (2 ^ 12) (2 ^ 12 + roundToPageSize (2 ^ 12) 32)
          true false ] ∧
    (2 * 2 ^ 12 + roundToPageSize (2 ^ 12) 32) -
      (2 ^ 12 + roundToPageSize (2 ^ 12) 32) = 2 ^ 12 ∧
    32 ≤ roundToPageSize (2 ^ 12) 32 ∧
    2 ^ 12 ≤ 2 ^ 12 + roundToPageSize (2 ^ 12) 32 - 32 ∧
    (createCanary (2 ^ 12)).canaryOff =
      2 ^ 12 + roundToPageSize (2 ^ 12) 32 - 32 ∧
    (createCanary (2 ^ 12)).canaryLen = 32 :=
  createCanary_layout 12 (2 ^ 12) (roundToPageSize (2 ^ 12) 32)
    (by norm_num) rfl rfl

/-- C7: for a container whose buffer of length `n ≥ 1` lies in the
guarded layout, `getAllMemory` describes a region of total length
`2P + roundToPageSize(n + 32)` that begins
`(roundToPageSize(n + 32) - n) + P` bytes before the buffer's first
byte; consequently the buffer's last byte coincides with the last byte
of the inner page set and the `P`-byte rear guard follows at once. -/
theorem getAllMemory_layout (k : ℕ) (P R : ℤ) (b : Container) (hk : k ≤ 62)
    (hP : P = 2 ^ k) (hR : R = roundToPageSize P (b.bufferLen + 32))
    (hn : 1 ≤ b.bufferLen)
    (hov : b.bufferLen + 32 + P - 1 < 2 ^ 63)
    (hlo : (R - b.bufferLen) + P ≤ b.bufferAddr)
    (hhi : b.bufferAddr < 2 ^ 64) :
    (getAllMemory P b).2 = 2 * P + R ∧
    (getAllMemory P b).1 = b.bufferAddr - ((R - b.bufferLen) + P) ∧
    (getAllMemory P b).1 + P + R = b.bufferAddr + b.bufferLen ∧
    (getAllMemory P b).1 + (getAllMemory P b).2 =
      (b.bufferAddr + b.bufferLen) + P := by
  have hk63 : k ≤ 63 := by omega
  have hpow : (0 : ℤ) < 2 ^ k := by positivity
  rw [hP] at hR hov hlo
  rw [hR] at hlo
  rw [hR, hP]
  have hR32 : b.bufferLen + 32 ≤ roundToPageSize (2 ^ k) (b.bufferLen + 32) :=
    (roundToPageSize_least k hk63 (b.bufferLen + 32) (by omega) (by omega)).2.1
  have h64 : (2 : ℤ) ^ 63 < 2 ^ 64 := by norm_num
  have haddr : (b.bufferAddr -
      ((roundToPageSize (2 ^ k) (b.bufferLen + 32) - b.bufferLen) + 2 ^ k)) %
        2 ^ 64 =
      b.bufferAddr -
        ((roundToPageSize (2 ^ k) (b.bufferLen + 32) - b.bufferLen) + 2 ^ k) :=
    Int.emod_eq_of_lt (by omega) (by omega)
  unfold getAllMemory
  refine ⟨by ring, ?_, ?_, ?_⟩ <;>
    simp only [haddr] <;> ring

/-- Witness for C7: page size `2^12`, a buffer of 16 bytes at address
`2^20`. -/
theorem getAllMemory_layout_witness :
    (getAllMemory (2 ^ 12) (Container.mk (2 ^ 20) 16)).2 =
      2 * 2 ^ 12 + roundToPageSize (2 ^ 12) ((Container.mk (2 ^ 20) 16).bufferLen + 32) ∧
    (getAllMemory (2 ^ 12) (Container.mk (2 ^ 20) 16)).1 =
      (Container.mk (2 ^ 20) 16).bufferAddr -
        ((roundToPageSize (2 ^ 12) ((Container.mk (2 ^ 20) 16).bufferLen + 32) -
          (Container.mk (2 ^ 20) 16).bufferLen) + 2 ^ 12) ∧
    (getAllMemory (2 ^ 12) (Container.mk (2 ^ 20) 16)).1 + 2 ^ 12 +
      roundToPageSize (2 ^ 12) ((Container.mk (2 ^ 20) 16).bufferLen + 32) =
      (Container.mk (2 ^ 20) 16).bufferAddr + (Container.mk (2 ^ 20) 16).bufferLen ∧
    (getAllMemory (2 ^ 12) (Container.mk (2 ^ 20) 16)).1 +
      (getAllMemory (2 ^ 12) (Container.mk (2 ^ 20) 16)).2 =
      ((Container.mk (2 ^ 20) 16).bufferAddr +
        (Container.mk (2 ^ 20) 16).bufferLen) + 2 ^ 12 :=
  getAllMemory_layout 12 (2 ^ 12)
    (roundToPageSize (2 ^ 12) ((Container.mk (2 ^ 20) 16).bufferLen + 32))
    (Container.mk (2 ^ 20) 16) (by norm_num) rfl rfl (by norm_num)
    (by norm_num) (by decide) (by norm_num)

/-- C8: with the page size a power of two and no overflow,
`roundToPageSize(x)` is the least multiple of `P` that is at least
`x`; in particular `roundToPageSize(jP) = jP` and
`roundToPageSize(jP + 1) = (j+1)P` for every `j ≥ 1`. -/
theorem roundToPageSize_least_multiple (k : ℕ) (hk : k ≤ 63) :
    (∀ x : ℤ, 0 ≤ x → x + 2 ^ k - 1 < 2 ^ 63 →
      roundToPageSize (2 ^ k) x % 2 ^ k = 0 ∧
      x ≤ roundToPageSize (2 ^ k) x ∧
      ∀ m : ℤ, m % 2 ^ k = 0 → x ≤ m → roundToPageSize (2 ^ k) x ≤ m) ∧
    (∀ j : ℤ, 1 ≤ j → (j + 1) * 2 ^ k < 2 ^ 63 →
      roundToPageSize (2 ^ k) (j * 2 ^ k) = j * 2 ^ k ∧
      roundToPageSize (2 ^ k) (j * 2 ^ k + 1) = (j + 1) * 2 ^ k) := by
  have hpow : (0 : ℤ) < 2 ^ k := by positivity
  constructor
  · intro x hx hov
    exact roundToPageSize_least k hk x hx hov
  · intro j hj hjov
    have hd : (j + 1) * 2 ^ k = j * 2 ^ k + 2 ^ k := by ring
    have hx1 : (0 : ℤ) ≤ j * 2 ^ k :=
      mul_nonneg (by omega) (le_of_lt hpow)
    obtain ⟨ha0, ha1, ha2⟩ :=
      roundToPageSize_least k hk (j * 2 ^ k) hx1 (by linarith)
    obtain ⟨hb0, hb1, hb2⟩ :=
      roundToPageSize_least k hk (j * 2 ^ k + 1) (by linarith) (by linarith)
    constructor
    · exact le_antisymm (ha2 (j * 2 ^ k) (Int.mul_emod_left j (2 ^ k)) le_rfl)
        ha1
    · have hup := hb2 ((j + 1) * 2 ^ k) (Int.mul_emod_left (j + 1) (2 ^ k))
        (by linarith)
      have hlow := mult_gap (2 ^ k) (roundToPageSize (2 ^ k) (j * 2 ^ k + 1))
        (j * 2 ^ k) hpow hb0 (Int.mul_emod_left j (2 ^ k)) (by linarith)
      refine le_antisymm hup ?_
      linarith

/-- Witness for C8: page size `2^12`, request 5000 rounds to 8192, and
the two contract instances at `j = 2`. -/
theorem roundToPageSize_least_multiple_witness :
    roundToPageSize (2 ^ 12) 5000 % 2 ^ 12 = 0 ∧
    (5000 : ℤ) ≤ roundToPageSize (2 ^ 12) 5000 ∧
    roundToPageSize (2 ^ 12) 5000 ≤ 8192 ∧
    roundToPageSize (2 ^ 12) (2 * 2 ^ 12) = 2 * 2 ^ 12 ∧
    roundToPageSize (2 ^ 12) (2 * 2 ^ 12 + 1) = (2 + 1) * 2 ^ 12 := by
  have h := roundToPageSize_least_multiple 12 (by norm_num)
  have h1 := h.1 5000 (by norm_num) (by norm_num)
  have h2 := h.2 2 (by norm_num) (by norm_num)
  exact ⟨h1.1, h1.2.1, h1.2.2 8192 (by decide) (by norm_num), h2.1, h2.2⟩

/-! ### Claim theorems: platform calls -/

/-- C9 counterexample: in `memcall_unix.go` a failing `munlock` makes
`Unlock` panic — it does not proceed, refuting the claim that an
Unlock failure is reported while execution continues. -/
theorem unlock_failure_counterexample :
    memcall.Unlock (some "EPERM") = CallOutcome.panicked ∧
    memcall.Unlock (some "EPERM") ≠ CallOutcome.proceeded := by
  refine ⟨rfl, ?_⟩
  decide

/-- C9 (amended): when the OS unpin call fails, `Unlock` aborts by
panic exactly as `Lock` does on a failing `mlock`: neither call
proceeds past a failure, and on success both proceed. -/
theorem unlock_failure_fatal (e : String) (madv r : Option String) :
    memcall.Unlock (some e) = CallOutcome.panicked ∧
    memcall.Unlock none = CallOutcome.proceeded ∧
    memcall.Lock madv (some e) = CallOutcome.panicked ∧
    memcall.Lock madv none = CallOutcome.proceeded ∧
    memcall.Unlock r = memcall.Lock madv r := by
  refine ⟨rfl, rfl, ?_, ?_, ?_⟩
  · cases madv <;> rfl
  · cases madv <;> rfl
  · cases r <;> cases madv <;> rfl

/-- C10: near the top of the signed 64-bit range the intermediate sum
of `roundToPageSize` wraps, and the function returns a negative value
— exactly `-2^63` — strictly less than its argument. -/
theorem roundToPageSize_wraps_high (k : ℕ) (hk : k ≤ 63) (x : ℤ)
    (hx1 : 2 ^ 63 - 2 ^ k < x) (hx2 : x ≤ 2 ^ 63 - 1) :
    goAdd x (goSub (2 ^ k) 1) < 0 ∧
    roundToPageSize (2 ^ k) x = -(2 ^ 63) ∧
    roundToPageSize (2 ^ k) x < 0 ∧
    roundToPageSize (2 ^ k) x < x := by
  obtain ⟨hw, hv⟩ := roundToPageSize_overflow k hk x hx1 hx2
  have h1 : (2 : ℤ) ^ k ≤ 2 ^ 63 := by
    exact_mod_cast pow_le_pow_right₀ (by norm_num) hk
  refine ⟨hw, hv, ?_, ?_⟩
  · rw [hv]
    norm_num
  · rw [hv]
    omega

/-- Witness for C10: page size `2^12` and the maximal `int`
`x = 2^63 - 1`. -/
theorem roundToPageSize_wraps_high_witness :
    goAdd (2 ^ 63 - 1) (goSub (2 ^ 12) 1) < 0 ∧
    roundToPageSize (2 ^ 12) (2 ^ 63 - 1) = -(2 ^ 63) ∧
    roundToPageSize (2 ^ 12) (2 ^ 63 - 1) < 0 ∧
    roundToPageSize (2 ^ 12) (2 ^ 63 - 1) < 2 ^ 63 - 1 :=
  roundToPageSize_wraps_high 12 (by norm_num) (2 ^ 63 - 1) (by norm_num)
    (by norm_num)
